import Mathlib

/-!
Verification development for the Naver stock consensus tracker
(`src/index.js`).  The JavaScript program is shallowly embedded: string
manipulation is modelled on `List Char`, JS numbers that may be `NaN` are
modelled as `Option Int` (with `none` standing for `NaN`), and the
floating-point gap percentage is modelled exactly over `ℚ`.
-/

namespace NaverTracker

/-- JS whitespace test used by `parseInt` when skipping leading blanks. -/
def isWs (c : Char) : Bool :=
  c = ' ' ∨ c = '\t' ∨ c = '\n' ∨ c = '\r'

/-- Decimal digit test. -/
def isDigitCh (c : Char) : Bool :=
  '0' ≤ c ∧ c ≤ '9'

/-- Numeric value of a decimal digit character. -/
def digitVal (c : Char) : Nat :=
  c.toNat - '0'.toNat

/-- Value of a list of decimal digits, most significant first. -/
def natOfDigits (ds : List Char) : Nat :=
  ds.foldl (fun n c => 10 * n + digitVal c) 0

/-- Leading-digit extraction: the JS `parseInt` core.  Returns `none`
(`NaN`) when the string does not start with a digit. -/
def leadingNat (cs : List Char) : Option Nat :=
  match cs.takeWhile isDigitCh with
  | [] => none
  | ds => some (natOfDigits ds)

/-- Model of JS `parseInt(s, 10)` on a character list: skip leading
whitespace, read an optional sign, then take the longest digit prefix;
`none` models the `NaN` result. -/
def jsParseIntChars (cs0 : List Char) : Option Int :=
  let cs := cs0.dropWhile isWs
  match cs with
  | [] => none
  | c :: rest =>
    if c = '-' then (leadingNat rest).map (fun n => -(n : Int))
    else if c = '+' then (leadingNat rest).map (fun n => (n : Int))
    else (leadingNat (c :: rest)).map (fun n => (n : Int))

/-- JS `parseInt(s, 10)` on a string. -/
def jsParseInt (s : String) : Option Int :=
  jsParseIntChars s.toList

/-- Model of `s.replace(/,/g, '')`: the global regex removes every comma. -/
def removeCommas (cs : List Char) : List Char :=
  cs.filter (fun c => c ≠ ',')

/-- Model of JS `s.replace('억','')` with a string pattern: only the FIRST
occurrence is removed. -/
def removeFirst (c : Char) : List Char → List Char
  | [] => []
  | x :: xs => if x = c then xs else x :: removeFirst c xs

/-- Model of JS `String.prototype.split` with a one-character separator. -/
def splitOnChar (sep : Char) : List Char → List (List Char)
  | [] => [[]]
  | c :: cs =>
    let r := splitOnChar sep cs
    if c = sep then [] :: r
    else
      match r with
      | [] => [[c]]
      | h :: t => (c :: h) :: t

/-- Model of JS `String.prototype.trim` (both ends). -/
def trimChars (cs : List Char) : List Char :=
  ((cs.dropWhile isWs).reverse.dropWhile isWs).reverse

/-- Boolean prefix test on character lists. -/
def isPrefixL : List Char → List Char → Bool
  | [], _ => true
  | _ :: _, [] => false
  | a :: as, b :: bs => a = b && isPrefixL as bs

/-- Boolean substring test on character lists (`pat` occurs in `s`). -/
def hasSub (pat : List Char) : List Char → Bool
  | [] => isPrefixL pat []
  | c :: rest => isPrefixL pat (c :: rest) || hasSub pat rest

/-- `strContains s pat` holds when `pat` occurs contiguously in `s`,
the JS `String.prototype.includes`. -/
def strContains (s pat : String) : Bool :=
  hasSub pat.toList s.toList

/-- NaN-propagating addition of JS numbers. -/
def jsAdd : Option Int → Option Int → Option Int
  | some a, some b => some (a + b)
  | _, _ => none

/-- NaN-respecting comparison `m >= k` of a possibly-NaN JS number with an
ordinary one: any comparison with `NaN` is false. -/
def jsGeOpt : Option Int → Int → Bool
  | none, _ => false
  | some m, k => k ≤ m

/-- `parseMarketCapToBillions` from `src/index.js`: converts a market-cap
display string (possibly `"2조4674억"`) into a quantity of 억 (hundred
million) units.  A non-empty string goes through comma removal, then the
조 branch (`parts[0] * 10000` plus an optional 억 remainder), else the 억
branch, else `0`.  `parseInt` returning `NaN` propagates through the sum,
so the result is `Option Int` with `none` for `NaN`. -/
def parseMarketCapToBillions (marketCapStr : String) : Option Int :=
  if marketCapStr = "" then some 0
  else
    let str := removeCommas marketCapStr.toList
    if str.contains '조' then
      let parts := splitOnChar '조' str
      let t1 := jsAdd (some 0) ((jsParseIntChars (parts.headD [])).map (· * 10000))
      match parts[1]? with
      | some p1 =>
        if p1 ≠ [] ∧ p1.contains '억' then
          jsAdd t1 (jsParseIntChars (removeFirst '억' p1))
        else t1
      | none => t1
    else if str.contains '억' then
      jsAdd (some 0) (jsParseIntChars (removeFirst '억' str))
    else some 0

/-- The JS function accepts any value; a non-string argument falls into the
`typeof marketCapStr !== 'string'` guard and yields `0`.  `none` here models
a non-string argument (e.g. `undefined`). -/
def parseMarketCapAny : Option String → Option Int
  | none => some 0
  | some s => parseMarketCapToBillions s

/-- The four fields extracted by `page.evaluate` for one stock.  Fields that
could not be found on the page carry their sentinel strings
(`"종목명 없음"`, `"현재가 없음"`, `"목표주가 없음"`, `"시총 없음"`). -/
structure StockData where
  name : String
  currentPrice : String
  targetPrice : String
  marketCap : String
deriving DecidableEq, Repr

/-- Run configuration read from the environment.
`gapPercentage` is `parseFloat(process.env.PRICE_GAP_PERCENTAGE)` with
`none` for `NaN` (unset or non-numeric); `minMarketCapRaw` is
`parseInt(process.env.MIN_MARKET_CAP_BILLIONS, 10)` before the `|| 0`. -/
structure Config where
  gapPercentage : Option ℚ
  minMarketCapRaw : Option Int
deriving DecidableEq, Repr

/-- `parseInt(process.env.MIN_MARKET_CAP_BILLIONS, 10) || 0`: `NaN` falls
back to `0` (and an explicit `0` stays `0`). -/
def Config.minMarketCap (cfg : Config) : Int :=
  cfg.minMarketCapRaw.getD 0

/-- One accumulated alert candidate: `{ code, ...stockData, gap }`. -/
structure Candidate where
  code : String
  name : String
  currentPrice : String
  targetPrice : String
  marketCap : String
  gap : ℚ
deriving DecidableEq, Repr

/-- `parseInt(String(x).replace(/,/g, ''), 10)` applied to a price field. -/
def parsePrice (s : String) : Option Int :=
  jsParseIntChars (removeCommas s.toList)

/-- The price-analysis block of `scrapeStockData` (lines 224-242): when the
configured gap percentage is a number, parse both prices, and when both are
numbers with `target > 0`, compute the gap and accumulate a candidate
exactly when the gap meets the threshold and the normalized market cap
meets the floor. -/
def analyzeStock (cfg : Config) (code : String) (sd : StockData) :
    Option Candidate :=
  match cfg.gapPercentage with
  | none => none
  | some gapPercentage =>
    match parsePrice sd.currentPrice, parsePrice sd.targetPrice with
    | some current, some target =>
      if 0 < target then
        let gap : ℚ := ((target - current : ℚ) / (target : ℚ)) * 100
        if gapPercentage ≤ gap ∧
            jsGeOpt (parseMarketCapToBillions sd.marketCap) cfg.minMarketCap then
          some { code := code, name := sd.name,
                 currentPrice := sd.currentPrice,
                 targetPrice := sd.targetPrice,
                 marketCap := sd.marketCap, gap := gap }
        else none
      else none
    | _, _ => none

/-- The per-stock row pushed onto `results`. -/
structure ResultEntry where
  code : String
  name : String
  currentPrice : String
  targetPrice : String
  marketCap : String
deriving DecidableEq, Repr

/-- Everything one iteration of the scraping loop produces: the `results`
row, the codes appended to `skip-list.txt` (one when the target price is
unavailable, none otherwise), and the optional alert candidate. -/
structure ItemOutcome where
  entry : ResultEntry
  skipAppend : List String
  candidate : Option Candidate
deriving DecidableEq, Repr

/-- One iteration of the `for (const [index, code] of stockCodes.entries())`
loop.  A successful fetch records the extracted fields, appends the code to
the skip list when `targetPrice === '목표주가 없음'`, and runs the price
analysis; a fetch error is caught and records the all-`'오류 발생'` row,
with no skip append and no candidate. -/
def processItem (cfg : Config) (code : String)
    (fr : Except Unit StockData) : ItemOutcome :=
  match fr with
  | .ok sd =>
    { entry := { code := code, name := sd.name,
                 currentPrice := sd.currentPrice,
                 targetPrice := sd.targetPrice, marketCap := sd.marketCap }
      skipAppend := if sd.targetPrice = "목표주가 없음" then [code] else []
      candidate := analyzeStock cfg code sd }
  | .error _ =>
    { entry := { code := code, name := "오류 발생", currentPrice := "오류 발생",
                 targetPrice := "오류 발생", marketCap := "오류 발생" }
      skipAppend := []
      candidate := none }

/-- Aggregate outcome of one pipeline run. -/
structure PipelineOut where
  processed : List String
  results : List ResultEntry
  skipAppends : List String
  candidates : List Candidate
deriving DecidableEq, Repr

/-- The body of `scrapeStockData` after the skip list is loaded: the
universe is filtered by the skip set
(`allStockCodes.filter(code => !skipCodes.has(code))`) and each surviving
code is processed in order, accumulating `results`, skip-list appends and
the `notificationBatch`. -/
def runPipeline (cfg : Config) (allStockCodes skipCodes : List String)
    (fetch : String → Except Unit StockData) : PipelineOut :=
  let stockCodes := allStockCodes.filter (fun code => !skipCodes.contains code)
  { processed := stockCodes
    results := stockCodes.map (fun code => (processItem cfg code (fetch code)).entry)
    skipAppends :=
      (stockCodes.map (fun code => (processItem cfg code (fetch code)).skipAppend)).flatten
    candidates :=
      stockCodes.filterMap (fun code => (processItem cfg code (fetch code)).candidate) }

/-- `notificationBatch.sort((a, b) => a.gap - b.gap)`: JS `Array.sort` is a
stable sort, here ascending by gap.  A stable sort's output is uniquely
determined by the comparator and the input order, so the structurally
recursive `List.insertionSort` is an exact model of it. -/
def sortCandidates (l : List Candidate) : List Candidate :=
  l.insertionSort (fun a b => a.gap ≤ b.gap)

/-- Worker for `batchSends`, structurally recursive on a fuel bound so that
it evaluates by kernel reduction; `batchSends` supplies fuel `l.length`,
which the loop never exhausts. -/
def batchSendsGo : Nat → List Candidate → List (List Candidate × Bool)
  | 0, _ => []
  | _ + 1, [] => []
  | n + 1, a :: rest =>
    ((a :: rest).take 5, decide (5 < (a :: rest).length)) ::
      batchSendsGo n ((a :: rest).drop 5)

/-- The batching loop of `scrapeStockData` (lines 281-286) rephrased on the
remaining suffix: each step sends `slice(i, i + BATCH_SIZE)` — the first
five of the remainder — and sleeps afterwards exactly when
`i + BATCH_SIZE < notificationBatch.length`, i.e. when more than five
elements remain.  Each pair is (chunk sent, delay inserted after it). -/
def batchSends (l : List Candidate) : List (List Candidate × Bool) :=
  batchSendsGo l.length l

/-- The title string built in `sendSlackNotification`; `stocks` is the
argument of that function, which the dispatch loop calls with one chunk. -/
def slackTitle (timestamp : String) (stocks : List Candidate) : String :=
  "[" ++ timestamp ++ "] 📈 목표주가 대비 저평가 종목 알림 (" ++
    toString stocks.length ++ "건)"

/-- One outbound Slack message: the title (also used as the summary text)
and the stocks listed in the body.  The body's string formatting
(`gap.toFixed(2)` etc.) is floating-point display and is not modelled
beyond the list of candidates it renders. -/
structure SlackMsg where
  title : String
  stocks : List Candidate
deriving DecidableEq, Repr

/-- `sendSlackNotification(stocks)`: no message is posted when the token or
channel is unconfigured or the list is empty; otherwise one message with
the title and the given stocks is posted. -/
def sendSlackMsg (configured : Bool) (timestamp : String)
    (stocks : List Candidate) : Option SlackMsg :=
  if configured = false ∨ stocks.length = 0 then none
  else some { title := slackTitle timestamp stocks, stocks := stocks }

/-- The messages actually posted by one run's dispatch phase: the
accumulated candidates are sorted ascending by gap, cut into batches of 5,
and each batch is passed to `sendSlackNotification`. -/
def outboundMessages (configured : Bool) (timestamp : String)
    (cands : List Candidate) : List SlackMsg :=
  (batchSends (sortCandidates cands)).filterMap
    (fun b => sendSlackMsg configured timestamp b.1)

/-- State of the scheduler process: the `isScraping` guard, the number of
pipeline runs currently in flight, and cumulative counters for pipeline
invocations, skip logs and top-level error logs. -/
structure SchedState where
  isScraping : Bool
  active : Nat
  invocations : Nat
  skips : Nat
  errorsLogged : Nat
deriving DecidableEq, Repr

/-- Events observable at the scheduler: a cron trigger firing, or an
in-flight `scrapeStockData()` run completing (failing when `fails`). -/
inductive SchedEvent where
  | trigger
  | finish (fails : Bool)
deriving DecidableEq, Repr

/-- The cron callback of `src/index.js` (lines 298-315) as a transition
system.  A trigger with `isScraping` set only logs a skip; otherwise it
sets the guard and starts a run.  A run completing clears the guard in the
`finally` block whether it failed or not, and a failure is logged by the
`catch` without stopping the scheduler. -/
def schedStep (s : SchedState) : SchedEvent → SchedState
  | .trigger =>
    if s.isScraping then { s with skips := s.skips + 1 }
    else
      { s with isScraping := true, active := s.active + 1,
               invocations := s.invocations + 1 }
  | .finish fails =>
    if s.active = 0 then s
    else
      { s with isScraping := false, active := s.active - 1,
               errorsLogged := s.errorsLogged + (if fails then 1 else 0) }

/-- Scheduler state at process start. -/
def schedInit : SchedState :=
  { isScraping := false, active := 0, invocations := 0, skips := 0,
    errorsLogged := 0 }

/-- Scheduler state after a sequence of events starting from process
start. -/
def schedRun (evs : List SchedEvent) : SchedState :=
  evs.foldl schedStep schedInit

/-- State of `skip-list.txt` on disk.  `ioFailure` stands for a file whose
access raises a non-`ENOENT` I/O error. -/
inductive FileState where
  | absent
  | present (content : String)
  | ioFailure
deriving DecidableEq, Repr

/-- Errors raised by the file-system calls: the file does not exist
(`ENOENT`), or any other I/O failure. -/
inductive FsError where
  | enoent
  | other
deriving DecidableEq, Repr

/-- Raw `fs.unlink(SKIP_LIST_FILE)`. -/
def unlinkRaw : FileState → Except FsError FileState
  | .absent => .error .enoent
  | .present _ => .ok .absent
  | .ioFailure => .error .other

/-- Raw `fs.readFile(SKIP_LIST_FILE, 'utf-8')`. -/
def readRaw : FileState → Except FsError String
  | .absent => .error .enoent
  | .present c => .ok c
  | .ioFailure => .error .other

/-- The monthly-reset deletion with its catch block (lines 91-99):
`ENOENT` is swallowed (the missing file is logged and left as is); every
other error is re-thrown. -/
def resetSkipList (fs : FileState) : Except FsError FileState :=
  match unlinkRaw fs with
  | .ok fs2 => .ok fs2
  | .error e => if e = .enoent then .ok fs else .error e

/-- `skipData.split('\n').filter(code => code.trim() !== '')`: the lines of
the file with the blank (whitespace-only) ones discarded; kept lines are
not themselves trimmed. -/
def parseSkipData (data : String) : List String :=
  ((splitOnChar '\n' data.toList).filter (fun l => trimChars l ≠ [])).map
    (fun l => String.mk l)

/-- The skip-list load with its catch block (lines 102-110): a missing file
yields the empty code list, any other I/O error is re-thrown. -/
def loadSkipCodes (fs : FileState) : Except FsError (List String) :=
  match readRaw fs with
  | .ok data => .ok (parseSkipData data)
  | .error e => if e = .enoent then .ok [] else .error e

/-- The ten decimal digit characters. -/
def digitChars : List Char :=
  ['0', '1', '2', '3', '4', '5', '6', '7', '8', '9']

/-- Whether one per-item fetch result triggers the skip-list append: a
successful extraction whose target price is the unavailable sentinel. -/
def targetUnavailable : Except Unit StockData → Bool
  | .ok sd => sd.targetPrice = "목표주가 없음"
  | .error _ => false

/-- A concrete candidate used to exercise the dispatcher on explicit
inputs. -/
def sampleCandidate (k : Nat) : Candidate :=
  { code := toString k, name := "종목" ++ toString k, currentPrice := "8,000",
    targetPrice := "10,000", marketCap := "100억", gap := (k : ℚ) }

/-- `n` concrete candidates with gaps `0, 1, …, n-1`. -/
def sampleCandidates (n : Nat) : List Candidate :=
  (List.range n).map sampleCandidate

lemma contains_eq_decide_mem {α : Type} [DecidableEq α] [BEq α] [LawfulBEq α]
    (l : List α) (c : α) :
    l.contains c = decide (c ∈ l) := by
  induction l with
  | nil => rfl
  | cons x xs ih => simp [List.contains_cons, ih]

lemma strMk_toList (l : List Char) : (String.mk l).toList = l := rfl

lemma strMk_eq_empty_iff (l : List Char) : String.mk l = "" ↔ l = [] := by
  constructor
  · intro h
    have := congrArg String.toList h
    simpa [strMk_toList] using this
  · intro h
    subst h
    rfl

lemma digit_facts {c : Char} (h : c ∈ digitChars) :
    c ≠ ',' ∧ c ≠ '조' ∧ c ≠ '억' ∧ c ≠ '-' ∧ c ≠ '+' ∧ isWs c = false ∧
      isDigitCh c = true := by
  fin_cases h <;> decide

lemma takeWhile_all {p : Char → Bool} :
    ∀ {l : List Char}, (∀ c ∈ l, p c = true) → l.takeWhile p = l := by
  intro l
  induction l with
  | nil => intro _; rfl
  | cons x xs ih =>
    intro h
    have hx : p x = true := h x (List.mem_cons_self _ _)
    have hrest := ih (fun c hc => h c (List.mem_cons_of_mem _ hc))
    simp [List.takeWhile_cons, hx, hrest]

lemma removeCommas_all {l : List Char} (h : ∀ c ∈ l, c ≠ ',') :
    removeCommas l = l := by
  unfold removeCommas
  rw [List.filter_eq_self]
  intro a ha
  simpa using h a ha

lemma splitOnChar_not_mem {sep : Char} :
    ∀ {l : List Char}, sep ∉ l → splitOnChar sep l = [l] := by
  intro l
  induction l with
  | nil => intro _; rfl
  | cons x xs ih =>
    intro h
    have hx : ¬(x = sep) := by
      intro hx; exact h (hx ▸ List.mem_cons_self _ _)
    have hxs : sep ∉ xs := fun hm => h (List.mem_cons_of_mem _ hm)
    simp [splitOnChar, hx, ih hxs]

lemma splitOnChar_append {sep : Char} {a rest : List Char} (h : sep ∉ a) :
    splitOnChar sep (a ++ sep :: rest) = a :: splitOnChar sep rest := by
  induction a with
  | nil => simp [splitOnChar]
  | cons x xs ih =>
    have hx : ¬(x = sep) := by
      intro hx; exact h (hx ▸ List.mem_cons_self _ _)
    have hxs : sep ∉ xs := fun hm => h (List.mem_cons_of_mem _ hm)
    simp only [List.cons_append, splitOnChar, List.append_eq, hx, if_false, ih hxs]

lemma removeFirst_append {c : Char} :
    ∀ {xs : List Char}, c ∉ xs → ∀ ys, removeFirst c (xs ++ c :: ys) = xs ++ ys := by
  intro xs
  induction xs with
  | nil => intro _ ys; simp [removeFirst]
  | cons x l ih =>
    intro h ys
    have hx : ¬(x = c) := by
      intro hx; exact h (hx ▸ List.mem_cons_self _ _)
    have hl : c ∉ l := fun hm => h (List.mem_cons_of_mem _ hm)
    simp [removeFirst, hx, ih hl ys]

lemma jsParseIntChars_digits {ds : List Char} (h : ds ≠ [])
    (hd : ∀ c ∈ ds, c ∈ digitChars) :
    jsParseIntChars ds = some ((natOfDigits ds : Nat) : Int) := by
  match ds, h with
  | d :: rest, _ =>
    have hfacts := digit_facts (hd d (List.mem_cons_self _ _))
    have hws : isWs d = false := hfacts.2.2.2.2.2.1
    have hdrop : (d :: rest).dropWhile isWs = d :: rest := by
      simp [List.dropWhile_cons, hws]
    have htake : (d :: rest).takeWhile isDigitCh = d :: rest :=
      takeWhile_all (fun c hc => (digit_facts (hd c hc)).2.2.2.2.2.2)
    unfold jsParseIntChars
    simp only [hdrop]
    rw [if_neg (by simpa using hfacts.2.2.2.1), if_neg (by simpa using hfacts.2.2.2.2.1)]
    unfold leadingNat
    rw [htake]
    rfl

lemma digits_no_comma {l : List Char} (hd : ∀ c ∈ l, c ∈ digitChars)
    {c : Char} (hc : c ∈ l) : c ≠ ',' :=
  (digit_facts (hd c hc)).1

lemma cho_not_mem_digits {l : List Char} (hd : ∀ c ∈ l, c ∈ digitChars) :
    '조' ∉ l := by
  intro hmem
  exact (digit_facts (hd _ hmem)).2.1 rfl

lemma eok_not_mem_digits {l : List Char} (hd : ∀ c ∈ l, c ∈ digitChars) :
    '억' ∉ l := by
  intro hmem
  exact (digit_facts (hd _ hmem)).2.2.1 rfl

lemma parse_small_units {b : List Char} (hb : b ≠ [])
    (hdb : ∀ c ∈ b, c ∈ digitChars) :
    parseMarketCapToBillions (String.mk (b ++ ['억'])) =
      some ((natOfDigits b : Nat) : Int) := by
  have hne : b ++ ['억'] ≠ [] := by simp
  have hcomma : removeCommas (b ++ ['억']) = b ++ ['억'] := by
    refine removeCommas_all ?_
    intro c hc
    rcases List.mem_append.1 hc with h1 | h1
    · exact digits_no_comma hdb h1
    · simp only [List.mem_singleton] at h1
      subst h1
      decide
  have hcho : (b ++ ['억']).contains '조' = false := by
    rw [contains_eq_decide_mem]
    simp only [decide_eq_false_iff_not]
    intro hmem
    rcases List.mem_append.1 hmem with h1 | h1
    · exact cho_not_mem_digits hdb h1
    · simp only [List.mem_singleton] at h1
      exact absurd h1 (by decide)
  have heok : (b ++ ['억']).contains '억' = true := by
    rw [contains_eq_decide_mem]
    simp
  have hrf : removeFirst '억' (b ++ ['억']) = b := by
    have := removeFirst_append (eok_not_mem_digits hdb) []
    simpa using this
  unfold parseMarketCapToBillions
  rw [if_neg (by rw [strMk_eq_empty_iff]; exact hne)]
  simp only [strMk_toList, hcomma, hcho, heok, Bool.false_eq_true, if_false, if_true,
    hrf, jsParseIntChars_digits hb hdb, jsAdd]
  simp

lemma parse_large_units {a : List Char} (ha : a ≠ [])
    (hda : ∀ c ∈ a, c ∈ digitChars) :
    parseMarketCapToBillions (String.mk (a ++ ['조'])) =
      some ((natOfDigits a : Nat) * 10000 : Int) := by
  have hne : a ++ ['조'] ≠ [] := by simp
  have hcomma : removeCommas (a ++ ['조']) = a ++ ['조'] := by
    refine removeCommas_all ?_
    intro c hc
    rcases List.mem_append.1 hc with h1 | h1
    · exact digits_no_comma hda h1
    · simp only [List.mem_singleton] at h1
      subst h1
      decide
  have hcho : (a ++ ['조']).contains '조' = true := by
    rw [contains_eq_decide_mem]
    simp
  have hsplit : splitOnChar '조' (a ++ ['조']) = [a, []] := by
    have h1 : splitOnChar '조' (a ++ '조' :: ([] : List Char)) =
        a :: splitOnChar '조' [] := splitOnChar_append (cho_not_mem_digits hda)
    simpa [splitOnChar] using h1
  unfold parseMarketCapToBillions
  rw [if_neg (by rw [strMk_eq_empty_iff]; exact hne)]
  simp only [strMk_toList, hcomma, hcho, if_true, hsplit,
    List.getElem?_cons_succ, List.getElem?_cons_zero, List.headD_cons]
  rw [jsParseIntChars_digits ha hda]
  simp [jsAdd]

lemma parse_combined_units {a b : List Char} (ha : a ≠ []) (hb : b ≠ [])
    (hda : ∀ c ∈ a, c ∈ digitChars) (hdb : ∀ c ∈ b, c ∈ digitChars) :
    parseMarketCapToBillions (String.mk (a ++ '조' :: (b ++ ['억']))) =
      some ((natOfDigits a : Nat) * 10000 + (natOfDigits b : Nat) : Int) := by
  have hne : a ++ '조' :: (b ++ ['억']) ≠ [] := by simp
  have hcomma : removeCommas (a ++ '조' :: (b ++ ['억']))
      = a ++ '조' :: (b ++ ['억']) := by
    refine removeCommas_all ?_
    intro c hc
    rcases List.mem_append.1 hc with h1 | h1
    · exact digits_no_comma hda h1
    · rcases List.mem_cons.1 h1 with h2 | h2
      · subst h2; decide
      · rcases List.mem_append.1 h2 with h3 | h3
        · exact digits_no_comma hdb h3
        · simp only [List.mem_singleton] at h3
          subst h3
          decide
  have hcho : (a ++ '조' :: (b ++ ['억'])).contains '조' = true := by
    rw [contains_eq_decide_mem]
    simp
  have hsplit : splitOnChar '조' (a ++ '조' :: (b ++ ['억'])) = [a, b ++ ['억']] := by
    rw [splitOnChar_append (cho_not_mem_digits hda)]
    have hnm : '조' ∉ b ++ ['억'] := by
      intro hmem
      rcases List.mem_append.1 hmem with h1 | h1
      · exact cho_not_mem_digits hdb h1
      · simp only [List.mem_singleton] at h1
        exact absurd h1 (by decide)
    rw [splitOnChar_not_mem hnm]
  have hp1ne : b ++ ['억'] ≠ [] := by simp
  have heok : (b ++ ['억']).contains '억' = true := by
    rw [contains_eq_decide_mem]
    simp
  have hrf : removeFirst '억' (b ++ ['억']) = b := by
    have := removeFirst_append (eok_not_mem_digits hdb) []
    simpa using this
  unfold parseMarketCapToBillions
  rw [if_neg (by rw [strMk_eq_empty_iff]; exact hne)]
  simp only [strMk_toList, hcomma, hcho, if_true, hsplit,
    List.getElem?_cons_succ, List.getElem?_cons_zero, List.headD_cons]
  rw [if_pos ⟨hp1ne, by rw [heok]⟩]
  rw [hrf, jsParseIntChars_digits ha hda, jsParseIntChars_digits hb hdb]
  simp [jsAdd]

lemma parse_no_units {s : String} (h1 : '조' ∉ s.toList) (h2 : '억' ∉ s.toList) :
    parseMarketCapToBillions s = some 0 := by
  unfold parseMarketCapToBillions
  by_cases hs : s = ""
  · rw [if_pos hs]
  · rw [if_neg hs]
    have hc1 : (removeCommas s.toList).contains '조' = false := by
      rw [contains_eq_decide_mem]
      simp only [decide_eq_false_iff_not]
      intro hm
      exact h1 (List.mem_of_mem_filter hm)
    have hc2 : (removeCommas s.toList).contains '억' = false := by
      rw [contains_eq_decide_mem]
      simp only [decide_eq_false_iff_not]
      intro hm
      exact h2 (List.mem_of_mem_filter hm)
    simp only [hc1, hc2, Bool.false_eq_true, if_false]

/-- C4, counterexample: the claim says an unparseable numeric fragment is
treated as zero for that fragment, which would give `"abc억" ↦ 0`; the code
instead propagates `parseInt`'s `NaN` (here `none`) through the sum, so the
whole result is `NaN`. -/
theorem c4_counterexample :
    parseMarketCapToBillions "abc억" ≠ some 0 ∧
      parseMarketCapToBillions "abc억" = none := by
  constructor
  · decide
  · decide

/-- C4 (amended): `parseMarketCapToBillions` removes comma separators and
maps a 조-part to its number times 10000 plus an 억-part times 1, in the
combined, large-only and small-only forms; a string with neither suffix,
the empty string, and non-string input all yield 0; but an unparseable
numeric fragment yields `NaN` (modelled `none`) for the whole result
rather than zero for that fragment; no exception is raised (the model is a
total function). -/
theorem c4_market_cap_normalizer :
    (∀ a b : List Char, a ≠ [] → b ≠ [] →
      (∀ c ∈ a, c ∈ digitChars) → (∀ c ∈ b, c ∈ digitChars) →
      parseMarketCapToBillions (String.mk (a ++ '조' :: (b ++ ['억']))) =
          some ((natOfDigits a : Nat) * 10000 + (natOfDigits b : Nat) : Int) ∧
      parseMarketCapToBillions (String.mk (a ++ ['조'])) =
          some ((natOfDigits a : Nat) * 10000 : Int) ∧
      parseMarketCapToBillions (String.mk (b ++ ['억'])) =
          some ((natOfDigits b : Nat) : Int)) ∧
    (∀ s : String, '조' ∉ s.toList → '억' ∉ s.toList →
      parseMarketCapToBillions s = some 0) ∧
    parseMarketCapToBillions "2조4674억" = some 24674 ∧
    parseMarketCapToBillions "2,345억" = some 2345 ∧
    parseMarketCapToBillions "" = some 0 ∧
    parseMarketCapAny none = some 0 ∧
    parseMarketCapToBillions "조4674억" = none := by
  refine ⟨?_, ?_, by decide, by decide, by decide, by decide, by decide⟩
  · intro a b ha hb hda hdb
    exact ⟨parse_combined_units ha hb hda hdb, parse_large_units ha hda,
      parse_small_units hb hdb⟩
  · intro s h1 h2
    exact parse_no_units h1 h2

/-- C4, witness: the general part of `c4_market_cap_normalizer` applied at the
digits of `"2조4674억"` and at the unit-free string `"123"`. -/
theorem c4_market_cap_normalizer_witness :
    parseMarketCapToBillions (String.mk (['2'] ++ '조' :: (['4', '6', '7', '4'] ++ ['억']))) =
        some 24674 ∧
      parseMarketCapToBillions "123" = some 0 := by
  constructor
  · have h := (c4_market_cap_normalizer.1 ['2'] ['4', '6', '7', '4'] (by decide)
      (by decide) (by decide) (by decide)).1
    rw [h]
    decide
  · exact c4_market_cap_normalizer.2.1 "123" (by decide) (by decide)

/-- C1: an alert candidate arises only when the gap threshold parses, both
price strings parse (commas removed) and the target is strictly positive;
in that case the candidate's gap is `(target - current) / target * 100`
and one is accumulated exactly when the gap meets the threshold and the
normalized market cap meets the floor.  At current `8,000` and target
`10,000` the gap is `20`: a candidate at threshold 15 (floor 0), none at
threshold 25. -/
theorem c1_gap_threshold_filter :
    (∀ (cfg : Config) (code : String) (sd : StockData) (cand : Candidate),
      analyzeStock cfg code sd = some cand →
      ∃ gp current target,
        cfg.gapPercentage = some gp ∧
        parsePrice sd.currentPrice = some current ∧
        parsePrice sd.targetPrice = some target ∧ 0 < target ∧
        cand.gap = ((target - current : ℚ) / (target : ℚ)) * 100 ∧
        gp ≤ cand.gap ∧
        jsGeOpt (parseMarketCapToBillions sd.marketCap) cfg.minMarketCap = true) ∧
    (∀ (cfg : Config) (gp : ℚ) (code : String) (sd : StockData)
        (current target : Int),
      cfg.gapPercentage = some gp →
      parsePrice sd.currentPrice = some current →
      parsePrice sd.targetPrice = some target → 0 < target →
      ((analyzeStock cfg code sd).isSome = true ↔
        (gp ≤ ((target - current : ℚ) / (target : ℚ)) * 100 ∧
          jsGeOpt (parseMarketCapToBillions sd.marketCap) cfg.minMarketCap = true))) ∧
    analyzeStock ⟨some 15, some 0⟩ "005930" ⟨"삼성전자", "8,000", "10,000", "100억"⟩ =
      some ⟨"005930", "삼성전자", "8,000", "10,000", "100억", 20⟩ ∧
    analyzeStock ⟨some 25, some 0⟩ "005930" ⟨"삼성전자", "8,000", "10,000", "100억"⟩ =
      none := by
  have hc : parsePrice "8,000" = some 8000 := by decide
  have ht : parsePrice "10,000" = some 10000 := by decide
  have hm : parseMarketCapToBillions "100억" = some 100 := by decide
  refine ⟨?_, ?_, ?_, ?_⟩
  case refine_3 =>
    simp only [analyzeStock, hc, ht]
    rw [if_pos (by decide : (0 : Int) < 10000)]
    rw [if_pos ⟨by norm_num, by rw [hm]; decide⟩]
    simp only [Option.some.injEq, Candidate.mk.injEq]
    norm_num
  case refine_4 =>
    simp only [analyzeStock, hc, ht]
    rw [if_pos (by decide : (0 : Int) < 10000)]
    rw [if_neg ?_]
    intro hcond
    have h1 := hcond.1
    norm_num at h1
  · intro cfg code sd cand h
    cases hgp : cfg.gapPercentage with
    | none => simp [analyzeStock, hgp] at h
    | some gp =>
      cases hc : parsePrice sd.currentPrice with
      | none => simp [analyzeStock, hgp, hc] at h
      | some current =>
        cases ht : parsePrice sd.targetPrice with
        | none => simp [analyzeStock, hgp, hc, ht] at h
        | some target =>
          simp only [analyzeStock, hgp, hc, ht] at h
          by_cases hpos : 0 < target
          · rw [if_pos hpos] at h
            by_cases hcond : gp ≤ ((target - current : ℚ) / (target : ℚ)) * 100 ∧
                jsGeOpt (parseMarketCapToBillions sd.marketCap) cfg.minMarketCap = true
            · rw [if_pos hcond] at h
              injection h with h2
              subst h2
              exact ⟨gp, current, target, rfl, rfl, rfl, hpos, rfl, hcond.1, hcond.2⟩
            · rw [if_neg hcond] at h
              cases h
          · rw [if_neg hpos] at h
            cases h
  · intro cfg gp code sd current target hgp hc ht hpos
    simp only [analyzeStock, hgp, hc, ht]
    rw [if_pos hpos]
    by_cases hcond : gp ≤ ((target - current : ℚ) / (target : ℚ)) * 100 ∧
        jsGeOpt (parseMarketCapToBillions sd.marketCap) cfg.minMarketCap = true
    · rw [if_pos hcond]
      simpa using hcond
    · rw [if_neg hcond]
      simpa using hcond

/-- C1, witness: both universally quantified parts of
`c1_gap_threshold_filter` applied at the concrete 8,000 / 10,000 stock. -/
theorem c1_gap_threshold_filter_witness :
    (∃ gp current target,
      (⟨some 15, some 0⟩ : Config).gapPercentage = some gp ∧
      parsePrice "8,000" = some current ∧
      parsePrice "10,000" = some target ∧ 0 < target ∧
      (20 : ℚ) = ((target - current : ℚ) / (target : ℚ)) * 100 ∧
      gp ≤ (20 : ℚ) ∧
      jsGeOpt (parseMarketCapToBillions "100억")
        (Config.minMarketCap ⟨some 15, some 0⟩) = true) ∧
    ((analyzeStock ⟨some 15, some 0⟩ "005930"
        ⟨"삼성전자", "8,000", "10,000", "100억"⟩).isSome = true ↔
      ((15 : ℚ) ≤ ((10000 - 8000 : ℚ) / (10000 : ℚ)) * 100 ∧
        jsGeOpt (parseMarketCapToBillions "100억")
          (Config.minMarketCap ⟨some 15, some 0⟩) = true)) := by
  constructor
  · exact c1_gap_threshold_filter.1 ⟨some 15, some 0⟩ "005930"
      ⟨"삼성전자", "8,000", "10,000", "100억"⟩
      ⟨"005930", "삼성전자", "8,000", "10,000", "100억", 20⟩
      c1_gap_threshold_filter.2.2.1
  · exact c1_gap_threshold_filter.2.1 ⟨some 15, some 0⟩ 15 "005930"
      ⟨"삼성전자", "8,000", "10,000", "100억"⟩ 8000 10000 rfl (by decide)
      (by decide) (by decide)

lemma schedStep_inv {s : SchedState}
    (h : s.active = if s.isScraping then 1 else 0) (ev : SchedEvent) :
    (schedStep s ev).active = if (schedStep s ev).isScraping then 1 else 0 := by
  cases ev with
  | trigger =>
    by_cases hg : s.isScraping
    · simp only [schedStep, hg, if_true]
      simpa [hg] using h
    · simp only [schedStep, hg, if_false]
      simp only [hg, if_false] at h
      simp [h]
  | finish f =>
    have hle : s.active ≤ 1 := by
      by_cases hg : s.isScraping <;> simp [hg] at h <;> omega
    simp only [schedStep]
    split
    · exact h
    · simp
      omega

lemma schedRun_inv (evs : List SchedEvent) :
    (schedRun evs).active = if (schedRun evs).isScraping then 1 else 0 := by
  suffices h : ∀ (s : SchedState), s.active = (if s.isScraping then 1 else 0) →
      (evs.foldl schedStep s).active =
        if (evs.foldl schedStep s).isScraping then 1 else 0 by
    exact h schedInit rfl
  induction evs with
  | nil => intro s hs; exact hs
  | cons ev rest ih =>
    intro s hs
    exact ih (schedStep s ev) (schedStep_inv hs ev)

/-- C2: the `isScraping` guard.  A trigger while the guard is set performs
no pipeline invocation, logs a skip and leaves the guard set; a trigger
while it is clear sets it and invokes the pipeline once; a run finishing
clears the guard whether or not it failed, logging the failure; after a
failed run the next trigger starts a pipeline run again (the scheduler
survives); and along every event sequence at most one run is active. -/
theorem c2_run_guard :
    (∀ a i k e, schedStep ⟨true, a, i, k, e⟩ .trigger = ⟨true, a, i, k + 1, e⟩) ∧
    (∀ a i k e, schedStep ⟨false, a, i, k, e⟩ .trigger =
      ⟨true, a + 1, i + 1, k, e⟩) ∧
    (∀ g a i k e f, schedStep ⟨g, a + 1, i, k, e⟩ (.finish f) =
      ⟨false, a, i, k, e + if f then 1 else 0⟩) ∧
    (∀ a i k e f, schedStep (schedStep ⟨true, a + 1, i, k, e⟩ (.finish f))
        .trigger = ⟨true, a + 1, i + 1, k, e + if f then 1 else 0⟩) ∧
    (∀ evs, (schedRun evs).active ≤ 1) := by
  refine ⟨?_, ?_, ?_, ?_, ?_⟩
  · intro a i k e
    simp [schedStep]
  · intro a i k e
    simp [schedStep]
  · intro g a i k e f
    simp [schedStep]
  · intro a i k e f
    simp [schedStep]
  · intro evs
    have h := schedRun_inv evs
    by_cases hg : (schedRun evs).isScraping <;> simp [hg] at h <;> omega

lemma filterMap_congr_mem {α β : Type} {f g : α → Option β} :
    ∀ {l : List α}, (∀ a ∈ l, f a = g a) → l.filterMap f = l.filterMap g := by
  intro l
  induction l with
  | nil => intro _; rfl
  | cons x xs ih =>
    intro h
    rw [List.filterMap_cons, List.filterMap_cons,
      h x (List.mem_cons_self _ _), ih (fun a ha => h a (List.mem_cons_of_mem _ ha))]

/-- C3: the pipeline processes exactly the universe minus the exclusion
set, in universe order; the run is fully determined by the fetcher's
values on those surviving codes (so the fetcher is never consulted for an
excluded identifier); and `[A,B,C]` minus `{B}` processes `[A,C]`. -/
theorem c3_universe_minus_exclusions :
    (∀ (cfg : Config) (univ skip : List String)
        (fetch : String → Except Unit StockData),
      (runPipeline cfg univ skip fetch).processed =
        univ.filter (fun c => !skip.contains c) ∧
      (∀ c, c ∈ (runPipeline cfg univ skip fetch).processed ↔
        c ∈ univ ∧ c ∉ skip) ∧
      (runPipeline cfg univ skip fetch).processed.Sublist univ ∧
      (∀ c ∈ skip, c ∉ (runPipeline cfg univ skip fetch).processed)) ∧
    (∀ (cfg : Config) (univ skip : List String)
        (fetch fetch2 : String → Except Unit StockData),
      (∀ c ∈ univ.filter (fun c => !skip.contains c), fetch c = fetch2 c) →
      runPipeline cfg univ skip fetch = runPipeline cfg univ skip fetch2) ∧
    (∀ (cfg : Config) (fetch : String → Except Unit StockData),
      (runPipeline cfg ["A", "B", "C"] ["B"] fetch).processed = ["A", "C"]) := by
  refine ⟨?_, ?_, ?_⟩
  · intro cfg univ skip fetch
    have hmem : ∀ c, c ∈ (runPipeline cfg univ skip fetch).processed ↔
        c ∈ univ ∧ c ∉ skip := by
      intro c
      simp [runPipeline, List.mem_filter, contains_eq_decide_mem]
    refine ⟨rfl, hmem, List.filter_sublist _, ?_⟩
    intro c hc hmem2
    exact ((hmem c).1 hmem2).2 hc
  · intro cfg univ skip fetch fetch2 h
    simp only [runPipeline]
    have hentry : (univ.filter (fun c => !skip.contains c)).map
        (fun code => (processItem cfg code (fetch code)).entry) =
        (univ.filter (fun c => !skip.contains c)).map
        (fun code => (processItem cfg code (fetch2 code)).entry) :=
      List.map_congr_left (fun a ha => by rw [h a ha])
    have hskipm : (univ.filter (fun c => !skip.contains c)).map
        (fun code => (processItem cfg code (fetch code)).skipAppend) =
        (univ.filter (fun c => !skip.contains c)).map
        (fun code => (processItem cfg code (fetch2 code)).skipAppend) :=
      List.map_congr_left (fun a ha => by rw [h a ha])
    have hcand : (univ.filter (fun c => !skip.contains c)).filterMap
        (fun code => (processItem cfg code (fetch code)).candidate) =
        (univ.filter (fun c => !skip.contains c)).filterMap
        (fun code => (processItem cfg code (fetch2 code)).candidate) :=
      filterMap_congr_mem (fun a ha => by rw [h a ha])
    rw [hentry, hskipm, hcand]
  · intro cfg fetch
    simp only [runPipeline]
    decide

/-- C10: with `PRICE_GAP_PERCENTAGE` unset or non-numeric
(`parseFloat` gives `NaN`, modelled `none`), no run produces any alert
candidate whatever the universe, exclusions and fetched data, and the
dispatch phase posts nothing. -/
theorem c10_nan_threshold_no_candidates :
    ∀ (m : Option Int) (univ skip : List String)
      (fetch : String → Except Unit StockData) (configured : Bool)
      (ts : String),
      (runPipeline ⟨none, m⟩ univ skip fetch).candidates = [] ∧
      outboundMessages configured ts
        (runPipeline ⟨none, m⟩ univ skip fetch).candidates = [] := by
  intro m univ skip fetch configured ts
  have hcand : (runPipeline ⟨none, m⟩ univ skip fetch).candidates = [] := by
    simp only [runPipeline]
    rw [List.filterMap_eq_nil_iff]
    intro a ha
    cases hf : fetch a with
    | ok sd => simp [processItem, analyzeStock]
    | error e => simp [processItem]
  refine ⟨hcand, ?_⟩
  rw [hcand]
  rfl

lemma skipAppend_eq (cfg : Config) (code : String)
    (fr : Except Unit StockData) :
    (processItem cfg code fr).skipAppend =
      if targetUnavailable fr then [code] else [] := by
  cases fr <;> simp [processItem, targetUnavailable]

lemma flatten_map_ite (f : String → Bool) (l : List String) :
    (l.map (fun c => if f c then [c] else [])).flatten = l.filter f := by
  induction l with
  | nil => rfl
  | cons x xs ih =>
    by_cases hx : f x <;> simp [List.filter_cons, hx, ih]

/-- C7: the codes appended to `skip-list.txt` during a run are exactly the
processed codes whose fetched target price is the unavailable sentinel, in
order and once per occurrence; a code whose fetch errored is never
appended. -/
theorem c7_skip_list_append :
    (∀ (cfg : Config) (univ skip : List String)
        (fetch : String → Except Unit StockData),
      (runPipeline cfg univ skip fetch).skipAppends =
        (runPipeline cfg univ skip fetch).processed.filter
          (fun c => targetUnavailable (fetch c))) ∧
    (∀ (cfg : Config) (univ skip : List String)
        (fetch : String → Except Unit StockData) (c : String) (e : Unit),
      fetch c = .error e →
      c ∉ (runPipeline cfg univ skip fetch).skipAppends) ∧
    (∀ (cfg : Config) (univ skip : List String)
        (fetch : String → Except Unit StockData) (c : String),
      (runPipeline cfg univ skip fetch).processed.Nodup →
      (runPipeline cfg univ skip fetch).skipAppends.count c =
        if targetUnavailable (fetch c) = true ∧
            c ∈ (runPipeline cfg univ skip fetch).processed then 1 else 0) := by
  have key : ∀ (cfg : Config) (univ skip : List String)
      (fetch : String → Except Unit StockData),
      (runPipeline cfg univ skip fetch).skipAppends =
        (runPipeline cfg univ skip fetch).processed.filter
          (fun c => targetUnavailable (fetch c)) := by
    intro cfg univ skip fetch
    simp only [runPipeline]
    rw [List.map_congr_left (fun a _ => skipAppend_eq cfg a (fetch a))]
    exact flatten_map_ite _ _
  refine ⟨key, ?_, ?_⟩
  · intro cfg univ skip fetch c e he hmem
    rw [key] at hmem
    have := (List.mem_filter.1 hmem).2
    rw [he] at this
    simp [targetUnavailable] at this
  · intro cfg univ skip fetch c hnd
    rw [key]
    by_cases hmem : c ∈ (runPipeline cfg univ skip fetch).processed.filter
        (fun c => targetUnavailable (fetch c))
    · have h1 := List.mem_filter.1 hmem
      rw [if_pos ⟨h1.2, h1.1⟩]
      exact List.count_eq_one_of_mem (hnd.filter _) hmem
    · rw [List.count_eq_zero.2 hmem, if_neg]
      intro hcontra
      exact hmem (List.mem_filter.2 ⟨hcontra.2, hcontra.1⟩)

/-- C7, witness: `c7_skip_list_append` applied to a two-stock universe in
which the first stock's target price is unavailable and the second's fetch
errored: only the first is appended. -/
theorem c7_skip_list_append_witness :
    ("E" : String) ∉ (runPipeline ⟨none, none⟩ ["U", "E"] []
      (fun c => if c = "E" then .error () else
        .ok ⟨"회사", "8000", "목표주가 없음", "100억"⟩)).skipAppends ∧
    (runPipeline ⟨none, none⟩ ["U", "E"] []
      (fun c => if c = "E" then .error () else
        .ok ⟨"회사", "8000", "목표주가 없음", "100억"⟩)).skipAppends.count "U" = 1 := by
  constructor
  · exact c7_skip_list_append.2.1 ⟨none, none⟩ ["U", "E"] []
      (fun c => if c = "E" then .error () else
        .ok ⟨"회사", "8000", "목표주가 없음", "100억"⟩) "E" () (by simp)
  · have h := c7_skip_list_append.2.2 ⟨none, none⟩ ["U", "E"] []
      (fun c => if c = "E" then .error () else
        .ok ⟨"회사", "8000", "목표주가 없음", "100억"⟩) "U" (by decide)
    rw [h]
    decide

/-- C8: deleting a missing skip list is a no-op and loading a missing one
yields the empty set, neither raising; loading an existing file splits on
newlines and discards blank (whitespace-only) lines; any I/O failure other
than `ENOENT` propagates out of both operations. -/
theorem c8_exclusion_store_io :
    resetSkipList .absent = .ok .absent ∧
    (∀ c, resetSkipList (.present c) = .ok .absent) ∧
    resetSkipList .ioFailure = .error .other ∧
    loadSkipCodes .absent = .ok [] ∧
    loadSkipCodes .ioFailure = .error .other ∧
    (∀ c, loadSkipCodes (.present c) = .ok (parseSkipData c)) ∧
    loadSkipCodes (.present "005930\n\n  \n000660\n") =
      .ok ["005930", "000660"] ∧
    (∀ (data s : String), s ∈ parseSkipData data → trimChars s.toList ≠ []) := by
  refine ⟨rfl, fun c => rfl, rfl, rfl, rfl, fun c => rfl, ?_, ?_⟩
  · simp only [loadSkipCodes, readRaw, Except.ok.injEq]
    decide
  intro data s hs
  unfold parseSkipData at hs
  rcases List.mem_map.1 hs with ⟨l, hl, rfl⟩
  have h2 := (List.mem_filter.1 hl).2
  simpa [strMk_toList] using h2

/-- C8, witness: `c8_exclusion_store_io` applied to the two-line file
`"A\nB"` and its first loaded code. -/
theorem c8_exclusion_store_io_witness :
    trimChars ("A" : String).toList ≠ [] := by
  exact c8_exclusion_store_io.2.2.2.2.2.2.2 "A\nB" "A" (by decide)

/-- C9: a per-item fetch error is isolated: the run's result rows are the
per-item outcomes of every processed identifier (so one error never stops
the others), an errored item yields the all-`'오류 발생'` placeholder row
with no skip append and no candidate, the error sentinel is distinct from
every unavailable sentinel, and a concrete two-stock run whose first fetch
errors still records both rows. -/
theorem c9_error_isolated :
    (∀ (cfg : Config) (univ skip : List String)
        (fetch : String → Except Unit StockData),
      (runPipeline cfg univ skip fetch).results =
        (runPipeline cfg univ skip fetch).processed.map
          (fun c => (processItem cfg c (fetch c)).entry) ∧
      (runPipeline cfg univ skip fetch).results.length =
        (runPipeline cfg univ skip fetch).processed.length) ∧
    (∀ (cfg : Config) (code : String) (e : Unit),
      processItem cfg code (.error e) =
        ⟨⟨code, "오류 발생", "오류 발생", "오류 발생", "오류 발생"⟩, [], none⟩) ∧
    (("오류 발생" : String) ≠ "목표주가 없음" ∧ ("오류 발생" : String) ≠ "현재가 없음" ∧
      ("오류 발생" : String) ≠ "시총 없음" ∧ ("오류 발생" : String) ≠ "종목명 없음") ∧
    (runPipeline ⟨none, none⟩ ["A", "B"] []
        (fun c => if c = "A" then .error () else
          .ok ⟨"회사", "8000", "10000", "100억"⟩)).results =
      [⟨"A", "오류 발생", "오류 발생", "오류 발생", "오류 발생"⟩,
       ⟨"B", "회사", "8000", "10000", "100억"⟩] := by
  refine ⟨?_, fun cfg code e => rfl, by decide, by decide⟩
  intro cfg univ skip fetch
  exact ⟨rfl, by simp [runPipeline]⟩

lemma batchSendsGo_nil (n : Nat) : batchSendsGo n [] = [] := by
  cases n <;> rfl

lemma batchSendsGo_flatten :
    ∀ (n : Nat) (l : List Candidate), l.length ≤ n →
      ((batchSendsGo n l).map Prod.fst).flatten = l := by
  intro n
  induction n with
  | zero =>
    intro l hl
    rw [List.length_eq_zero.1 (Nat.le_zero.1 hl)]
    rfl
  | succ n ih =>
    intro l hl
    cases l with
    | nil => rfl
    | cons a rest =>
      simp only [batchSendsGo, List.map_cons, List.flatten_cons]
      rw [ih ((a :: rest).drop 5) (by simp at hl ⊢; omega)]
      exact List.take_append_drop 5 (a :: rest)

lemma batchSendsGo_sizes :
    ∀ (n : Nat) (l : List Candidate), l.length ≤ n →
      ∀ b ∈ batchSendsGo n l, b.1.length ≤ 5 ∧ b.1 ≠ [] := by
  intro n
  induction n with
  | zero =>
    intro l hl b hb
    rw [List.length_eq_zero.1 (Nat.le_zero.1 hl)] at hb
    cases hb
  | succ n ih =>
    intro l hl b hb
    cases l with
    | nil => cases hb
    | cons a rest =>
      simp only [batchSendsGo, List.mem_cons] at hb
      rcases hb with hb | hb
      · subst hb
        constructor
        · simp
        · simp
      · exact ih ((a :: rest).drop 5) (by simp at hl ⊢; omega) b hb

lemma batchSendsGo_flags :
    ∀ (n : Nat) (l : List Candidate), l.length ≤ n → l ≠ [] →
      (batchSendsGo n l).map Prod.snd =
        List.replicate ((batchSendsGo n l).length - 1) true ++ [false] := by
  intro n
  induction n with
  | zero =>
    intro l hl hne
    exact absurd (List.length_eq_zero.1 (Nat.le_zero.1 hl)) hne
  | succ n ih =>
    intro l hl hne
    cases l with
    | nil => exact absurd rfl hne
    | cons a rest =>
      simp only [List.length_cons] at hl
      by_cases h5 : rest.length + 1 ≤ 5
      · have hdrop : (a :: rest).drop 5 = [] := by
          rw [List.drop_eq_nil_iff]
          simp only [List.length_cons]
          omega
        have hflag : decide (5 < rest.length + 1) = false := by
          simp only [decide_eq_false_iff_not]
          omega
        simp only [batchSendsGo, hdrop, batchSendsGo_nil, List.length_cons,
          List.map_cons, List.map_nil, hflag]
        rfl
      · have hdropne : (a :: rest).drop 5 ≠ [] := by
          rw [Ne, List.drop_eq_nil_iff]
          simp only [List.length_cons]
          omega
        have hrec := ih ((a :: rest).drop 5)
          (by simp only [List.length_drop, List.length_cons]; omega) hdropne
        have hlen : batchSendsGo n ((a :: rest).drop 5) ≠ [] := by
          intro hcontra
          have hfl := batchSendsGo_flatten n ((a :: rest).drop 5)
            (by simp only [List.length_drop, List.length_cons]; omega)
          rw [hcontra] at hfl
          exact hdropne hfl.symm
        have hflag : decide (5 < rest.length + 1) = true := by
          simp only [decide_eq_true_eq]
          omega
        have hk : (batchSendsGo n ((a :: rest).drop 5)).length - 1 + 1 =
            (batchSendsGo n ((a :: rest).drop 5)).length :=
          Nat.succ_pred_eq_of_pos (List.length_pos.2 hlen)
        simp only [batchSendsGo, List.map_cons, List.length_cons, hflag, hrec,
          Nat.add_sub_cancel]
        rw [← hk, List.replicate_succ]
        simp

lemma batchSends_spec (l : List Candidate) :
    ((batchSends l).map Prod.fst).flatten = l ∧
      (∀ b ∈ batchSends l, b.1.length ≤ 5 ∧ b.1 ≠ []) ∧
      (l ≠ [] → (batchSends l).map Prod.snd =
        List.replicate ((batchSends l).length - 1) true ++ [false]) :=
  ⟨batchSendsGo_flatten l.length l le_rfl,
   batchSendsGo_sizes l.length l le_rfl,
   batchSendsGo_flags l.length l le_rfl⟩

/-- C5: before dispatch the candidates are sorted ascending by gap
(a permutation of the accumulated list); the batches sent are consecutive
chunks of at most five of that sorted order whose concatenation is the
whole sorted list; a pause follows every batch except the last; and 12
candidates yield exactly three sends of sizes 5, 5, 2 with pauses after
the first two only. -/
theorem c5_sorted_batch_dispatch :
    (∀ cs : List Candidate,
      (sortCandidates cs).Perm cs ∧
      (sortCandidates cs).Sorted (fun a b => a.gap ≤ b.gap) ∧
      ((batchSends (sortCandidates cs)).map Prod.fst).flatten =
        sortCandidates cs ∧
      (∀ b ∈ batchSends (sortCandidates cs), b.1.length ≤ 5 ∧ b.1 ≠ []) ∧
      (cs ≠ [] → (batchSends (sortCandidates cs)).map Prod.snd =
        List.replicate ((batchSends (sortCandidates cs)).length - 1) true ++
          [false])) ∧
    (batchSends (sortCandidates (sampleCandidates 12))).map
      (fun b => (b.1.length, b.2)) = [(5, true), (5, true), (2, false)] ∧
    (outboundMessages true "ts" (sampleCandidates 12)).length = 3 := by
  refine ⟨?_, by decide, by decide⟩
  intro cs
  haveI : IsTotal Candidate (fun a b => a.gap ≤ b.gap) :=
    ⟨fun a b => le_total a.gap b.gap⟩
  haveI : IsTrans Candidate (fun a b => a.gap ≤ b.gap) :=
    ⟨fun _ _ _ hab hbc => le_trans hab hbc⟩
  have hperm : (sortCandidates cs).Perm cs := List.perm_insertionSort _ cs
  have hspec := batchSends_spec (sortCandidates cs)
  refine ⟨hperm, List.sorted_insertionSort _ cs, hspec.1, hspec.2.1, ?_⟩
  intro hne
  refine hspec.2.2 ?_
  intro hcontra
  have hlen := hperm.length_eq
  rw [hcontra] at hlen
  exact hne (List.length_eq_zero.1 hlen.symm)

/-- C5, witness: the universally quantified part of
`c5_sorted_batch_dispatch` applied to the 12 sample candidates, whose
non-emptiness discharges the pause-pattern hypothesis. -/
theorem c5_sorted_batch_dispatch_witness :
    (batchSends (sortCandidates (sampleCandidates 12))).map Prod.snd =
      List.replicate
        ((batchSends (sortCandidates (sampleCandidates 12))).length - 1) true ++
        [false] :=
  (c5_sorted_batch_dispatch.1 (sampleCandidates 12)).2.2.2.2 (by decide)

lemma isPrefixL_self_append : ∀ (p t : List Char), isPrefixL p (p ++ t) = true := by
  intro p
  induction p with
  | nil => intro t; rfl
  | cons x xs ih => intro t; simp [isPrefixL, ih]

lemma hasSub_nil_pat : ∀ (s : List Char), hasSub [] s = true := by
  intro s
  cases s with
  | nil => rfl
  | cons c rest => simp [hasSub, isPrefixL]

lemma hasSub_append : ∀ (x p y : List Char), hasSub p (x ++ (p ++ y)) = true := by
  intro x
  induction x with
  | nil =>
    intro p y
    cases p with
    | nil => exact hasSub_nil_pat _
    | cons q qs =>
      simp only [List.nil_append, List.cons_append, hasSub, List.append_eq]
      have h1 := isPrefixL_self_append (q :: qs) y
      simp only [List.cons_append] at h1
      rw [h1]
      rfl
  | cons x0 xs ih =>
    intro p y
    simp only [List.cons_append, hasSub, List.append_eq]
    rw [ih p y, Bool.or_true]

lemma strContains_of_parts (a s b : String) :
    strContains (a ++ s ++ b) s = true := by
  unfold strContains
  have hdata : (a ++ s ++ b).toList = a.toList ++ (s.toList ++ b.toList) := by
    show (a ++ s ++ b).data = a.data ++ (s.data ++ b.data)
    simp [String.data_append, List.append_assoc]
  rw [hdata]
  exact hasSub_append _ _ _

lemma strAppend_empty (s : String) : s ++ "" = s := by
  apply String.ext
  simp [String.data_append]

/-- C6, counterexample: the claim says every batch title carries the count
of the whole run's candidates.  In a 12-candidate run the third outbound
message's title reads `(2건)` — the size of its own batch — and does not
contain `(12건)`. -/
theorem c6_counterexample :
    (sampleCandidates 12).length = 12 ∧
    (outboundMessages true "2025-06-02 07:00" (sampleCandidates 12)).length = 3 ∧
    ((outboundMessages true "2025-06-02 07:00" (sampleCandidates 12))[2]?).map
        SlackMsg.title =
      some "[2025-06-02 07:00] 📈 목표주가 대비 저평가 종목 알림 (2건)" ∧
    strContains "[2025-06-02 07:00] 📈 목표주가 대비 저평가 종목 알림 (2건)"
      "(12건)" = false ∧
    strContains "[2025-06-02 07:00] 📈 목표주가 대비 저평가 종목 알림 (2건)"
      "(2건)" = true := by
  exact ⟨by decide, by decide, by decide, by decide, by decide⟩

/-- C6 (amended): every outbound batch message's title carries the run
timestamp, the localized label, and the count of the candidates in that
one batch (at most five) — not the total accumulated in the whole run. -/
theorem c6_batch_title_count :
    ∀ (ts : String) (cs : List Candidate) (m : SlackMsg),
      m ∈ outboundMessages true ts cs →
      ∃ b ∈ batchSends (sortCandidates cs),
        m.stocks = b.1 ∧ m.title = slackTitle ts b.1 ∧
        strContains m.title ts = true ∧
        strContains m.title (toString b.1.length ++ "건)") = true := by
  intro ts cs m hm
  rcases List.mem_filterMap.1 hm with ⟨b, hb, hsend⟩
  unfold sendSlackMsg at hsend
  by_cases hcond : (true = false ∨ b.1.length = 0)
  · rw [if_pos hcond] at hsend
    cases hsend
  · rw [if_neg hcond] at hsend
    injection hsend with hsend
    refine ⟨b, hb, ?_, ?_, ?_, ?_⟩
    · rw [← hsend]
    · rw [← hsend]
    · rw [← hsend]
      show strContains (slackTitle ts b.1) ts = true
      have h1 : slackTitle ts b.1 =
          "[" ++ ts ++ ("] 📈 목표주가 대비 저평가 종목 알림 (" ++
            toString b.1.length ++ "건)") := by
        simp [slackTitle, String.append_assoc]
      rw [h1]
      exact strContains_of_parts _ _ _
    · rw [← hsend]
      show strContains (slackTitle ts b.1)
        (toString b.1.length ++ "건)") = true
      have h2 : slackTitle ts b.1 =
          ("[" ++ ts ++ "] 📈 목표주가 대비 저평가 종목 알림 (") ++
            (toString b.1.length ++ "건)") ++ "" := by
        simp [slackTitle, String.append_assoc, strAppend_empty]
      rw [h2]
      exact strContains_of_parts _ _ _

/-- C6, witness: `c6_batch_title_count` applied to a seven-candidate run's
second (two-element) outbound message. -/
theorem c6_batch_title_count_witness :
    ∃ b ∈ batchSends (sortCandidates (sampleCandidates 7)),
      (⟨"[ts] 📈 목표주가 대비 저평가 종목 알림 (2건)",
          [sampleCandidate 5, sampleCandidate 6]⟩ : SlackMsg).stocks = b.1 ∧
      (⟨"[ts] 📈 목표주가 대비 저평가 종목 알림 (2건)",
          [sampleCandidate 5, sampleCandidate 6]⟩ : SlackMsg).title =
        slackTitle "ts" b.1 ∧
      strContains "[ts] 📈 목표주가 대비 저평가 종목 알림 (2건)" "ts" = true ∧
      strContains "[ts] 📈 목표주가 대비 저평가 종목 알림 (2건)"
        (toString b.1.length ++ "건)") = true := by
  exact c6_batch_title_count "ts" (sampleCandidates 7)
    ⟨"[ts] 📈 목표주가 대비 저평가 종목 알림 (2건)",
      [sampleCandidate 5, sampleCandidate 6]⟩ (by decide)

/-- C3, witness: `c3_universe_minus_exclusions` applied to the universe
`[A,B,C]` with exclusion `{B}` and to two fetchers that agree on the
surviving codes `[A,C]` but differ on the excluded `B`. -/
theorem c3_universe_minus_exclusions_witness :
    (("B" : String) ∉ (runPipeline ⟨none, none⟩ ["A", "B", "C"] ["B"]
      (fun _ => .error ())).processed) ∧
    runPipeline ⟨none, none⟩ ["A", "B", "C"] ["B"] (fun _ => .error ()) =
      runPipeline ⟨none, none⟩ ["A", "B", "C"] ["B"]
        (fun c => if c = "B" then .ok ⟨"x", "1", "2", "3억"⟩ else .error ()) := by
  constructor
  · exact (c3_universe_minus_exclusions.1 ⟨none, none⟩ ["A", "B", "C"] ["B"]
      (fun _ => .error ())).2.2.2 "B" (by decide)
  · refine c3_universe_minus_exclusions.2.1 ⟨none, none⟩ ["A", "B", "C"] ["B"]
      (fun _ => .error ())
      (fun c => if c = "B" then .ok ⟨"x", "1", "2", "3억"⟩ else .error ()) ?_
    intro c hc
    simp only [List.mem_filter] at hc
    obtain ⟨hmem, hpred⟩ := hc
    fin_cases hmem <;> simp_all

end NaverTracker
